import Mathlib

/-!
Verification of the NSAI Data agent-orchestration core.

Shallow embedding of `src/backend/agents/base.py` (BaseAgent, AgentOrchestrator,
ChainableAgent) and `src/backend/api/research.py` (execute_research,
update_research_status, get_research_status).

Modelling conventions:
- Python values flowing through agents are modelled by the inductive `Value`.
- Python dicts (contexts, metadata, storage records) are association lists with
  Python dict semantics: assignment updates an existing key in place, otherwise
  appends; `dictKeys` is insertion order.
- An agent's core computation `_execute` is a function of the input and of the
  agent's context (`self._context`), returning an `Outcome`: normal return,
  raised exception (with its message), or deadline expiry of `asyncio.wait_for`.
  Since wall-clock time is external, the elapsed milliseconds of each call are
  carried by the outcome as an uninterpreted natural number.
- The agents shipped in `research_agents.py` never mutate `self._context`
  during `_execute`, so the computation is modelled as read-only in the context.
-/

/-- Python values exchanged between agents (payloads, context entries). -/
inductive Value where
  | vnone : Value
  | str : String → Value
  | num : Int → Value
  | list : List Value → Value
  | dict : List (String × Value) → Value
deriving Inhabited

/-- A Python dict with string keys, as an insertion-ordered association list. -/
abbrev Ctx := List (String × Value)

/-- Python dict assignment `d[k] = v`: update the existing key in place,
otherwise append the new pair at the end. -/
def dictInsert (d : Ctx) (k : String) (v : Value) : Ctx :=
  if d.any (fun p => p.1 == k) then
    d.map (fun p => if p.1 == k then (k, v) else p)
  else
    d ++ [(k, v)]

/-- Python dict lookup `d.get(k)`. -/
def dictGet (d : Ctx) (k : String) : Option Value :=
  (d.find? (fun p => p.1 == k)).map (fun p => p.2)

/-- Python `list(d.keys())`. -/
def dictKeys (d : Ctx) : List String :=
  d.map (fun p => p.1)

/-- Outcome of one run of an agent's core computation `_execute` under
`asyncio.wait_for`: normal value, raised exception (message of `str(e)`),
or timeout.  The `Nat` is the elapsed wall-clock duration in ms. -/
inductive Outcome where
  | ok : Value → Nat → Outcome
  | exn : String → Nat → Outcome
  | timedOut : Nat → Outcome
deriving Inhabited

/-- The result envelope `AgentResult` of `base.py`. `data` is `Value.vnone`
when the Python field is `None`. -/
structure AgentResult where
  agent_name : String
  success : Bool
  data : Value
  error : Option String
  duration_ms : Nat
  metadata : Ctx
deriving Inhabited

/-- A `BaseAgent`: name, instance id (generated at construction), timeout in
seconds, and the core computation `_execute` (reading `self._context`). -/
structure Agent where
  name : String
  id : String
  timeout : Nat
  compute : Value → Ctx → Outcome
deriving Inhabited

namespace Agent

/-- `BaseAgent._get_metadata`: agent id plus the keys of the current context. -/
def metadataOf (a : Agent) (ctx : Ctx) : Ctx :=
  [("agent_id", Value.str a.id),
   ("context_keys", Value.list ((dictKeys ctx).map Value.str))]

/-- Body of `BaseAgent.execute` after `self._context` has been set to `ctx`:
wrap the computation's outcome into a result envelope (lines 59-128). -/
def runWith (a : Agent) (input : Value) (ctx : Ctx) : AgentResult :=
  match a.compute input ctx with
  | .ok v ms =>
      { agent_name := a.name, success := true, data := v, error := none,
        duration_ms := ms, metadata := a.metadataOf ctx }
  | .timedOut ms =>
      { agent_name := a.name, success := false, data := Value.vnone,
        error := some ("Agent execution timed out after " ++ toString a.timeout ++ "s"),
        duration_ms := ms, metadata := a.metadataOf ctx }
  | .exn msg ms =>
      { agent_name := a.name, success := false, data := Value.vnone,
        error := some msg, duration_ms := ms, metadata := a.metadataOf ctx }

/-- `BaseAgent.execute(input_data, context)`.  `prevCtx` is the agent's
`self._context` before the call; line 57 (`self._context = context or \x7b\x7d`)
replaces it wholesale with the passed context (the empty dict when `None`),
so the returned pair is (envelope, new `self._context`). -/
def execute (a : Agent) (input : Value) (context : Option Ctx) (prevCtx : Ctx) :
    AgentResult × Ctx :=
  (a.runWith input (context.getD []), context.getD [])

/-- The result envelope of `BaseAgent.execute`, ignoring the context state. -/
def run (a : Agent) (input : Value) (context : Option Ctx) : AgentResult :=
  (a.execute input context []).1

/-- `BaseAgent.set_context(key, value)` acting on `self._context`. -/
def setContext (st : Ctx) (k : String) (v : Value) : Ctx :=
  dictInsert st k v

end Agent

/-- The value stored under the `previous_results` key in
`AgentOrchestrator.execute_sequential` (line 181): the `data` of every
successful result so far. -/
def prevResultsValue (results : List AgentResult) : Value :=
  Value.list ((results.filter (fun r => r.success)).map (fun r => r.data))

/-- The context delivered to the next agent in
`AgentOrchestrator.execute_sequential` (lines 176-181): a copy of the shared
context, augmented with `previous_results` only when `results` is truthy
(non-empty). -/
def seqContext (ctx : Ctx) (results : List AgentResult) : Ctx :=
  if results.isEmpty then ctx
  else dictInsert ctx "previous_results" (prevResultsValue results)

/-- Loop of `AgentOrchestrator.execute_sequential` (lines 175-192), with the
remaining agents, the current input and the accumulated results explicit. -/
def execute_sequentialGo (ctx : Ctx) :
    List Agent → Value → List AgentResult → List AgentResult
  | [], _, results => results
  | agent :: rest, current_input, results =>
    let agent_context := seqContext ctx results
    let result := agent.run current_input (some agent_context)
    let results2 := results ++ [result]
    if result.success then execute_sequentialGo ctx rest result.data results2
    else results2

/-- `AgentOrchestrator.execute_sequential(initial_input, context)`. -/
def execute_sequential (agents : List Agent) (initial_input : Value)
    (context : Option Ctx) : List AgentResult :=
  execute_sequentialGo (context.getD []) agents initial_input []

/-- `AgentOrchestrator.execute_parallel(input_data, context)`: every agent is
given the same input and its own fresh copy of the shared context (line 205);
`asyncio.gather` returns the envelopes positionally, in task creation order. -/
def execute_parallel (agents : List Agent) (input_data : Value)
    (context : Option Ctx) : List AgentResult :=
  let ctx := context.getD []
  agents.map (fun a => a.run input_data (some ctx))

/-- A Python dict display built from a list of key-value pairs (later pairs
overwrite earlier ones with the same key), as in the dict comprehension of
line 237. -/
def dictOfPairs (ps : List (String × Value)) : Ctx :=
  ps.foldl (fun d p => dictInsert d p.1 p.2) []

/-- `AgentOrchestrator.execute_map_reduce(input_data, reducer, context)`. -/
def execute_map_reduce (agents : List Agent) (input_data : Value)
    (reducer : Agent) (context : Option Ctx) : AgentResult :=
  let map_results := execute_parallel agents input_data context
  let successful_results := map_results.filter (fun r => r.success)
  if successful_results.isEmpty then
    { agent_name := "map_reduce", success := false, data := Value.vnone,
      error := some "All map agents failed",
      duration_ms := (map_results.map (fun r => r.duration_ms)).sum,
      metadata := [("failed_agents",
        Value.list ((map_results.filter (fun r => !r.success)).map
          (fun r => Value.str r.agent_name)))] }
  else
    let reduce_input := Value.dict
      [("results", Value.list (successful_results.map (fun r => r.data))),
       ("metadata", Value.dict (dictOfPairs (successful_results.map
         (fun r => (r.agent_name, Value.dict r.metadata)))))]
    reducer.run reduce_input context

/-- A `ChainableAgent`: an agent with an optional `next_agent` link. -/
inductive ChainableAgent where
  | mk (agent : Agent) (next_agent : Option ChainableAgent) : ChainableAgent

/-- The agents of a chain, head first, following the `next_agent` links. -/
def chainAgents : ChainableAgent → List Agent
  | .mk a none => [a]
  | .mk a (some c) => a :: chainAgents c

/-- `ChainableAgent.execute_chain(input_data, context)` (lines 255-271): run
the current agent, append its envelope, stop on failure or at the end of the
chain, otherwise feed `data` to the successor.  The caller's `context` is
passed unchanged to every link. -/
def execute_chain : ChainableAgent → Value → Option Ctx → List AgentResult
  | .mk a next, input_data, context =>
    let result := a.run input_data context
    if result.success then
      match next with
      | none => [result]
      | some c => result :: execute_chain c result.data context
    else [result]

/-!
Model of the workflow driver and status tracker of `src/backend/api/research.py`.

The six phase agents (query analysis, web search, content extraction, insight
generation, report formatting, validation) are opaque external computations;
a run of `execute_research` is determined, as far as the status tracker is
concerned, by the six envelopes those `execute` calls return, so they are the
parameters of the model.  The observable modelled for claim C7 is the ordered
trace of `update_research_status(id, status, progress, message)` calls the
driver makes during the run, together with the run's `success` flag.
-/

/-- The envelopes returned by the six phase agents of one workflow run. -/
structure PhaseResults where
  analysis : AgentResult
  search : AgentResult
  extraction : AgentResult
  insight : AgentResult
  format : AgentResult
  validation : AgentResult

/-- Python string interpolation of an `Optional[str]`: `None` prints as
`"None"`. -/
def errText : Option String → String
  | none => "None"
  | some s => s

/-- `execute_research` (lines 148-260), projected to the trace of
`update_research_status` calls (status, progress, message) and the returned
`success` flag.  Each failed phase raises `ResearchError`, caught by the
outer handler which records `("failed", 0, str(e))`; a failed validation
phase does not abort the run. -/
def execute_research (p : PhaseResults) (enable_validation : Bool) :
    List (String × Int × String) × Bool :=
  let t0 := [("analyzing", (10 : Int), "Analyzing query...")]
  if !p.analysis.success then
    (t0 ++ [("failed", 0, "Query analysis failed: " ++ errText p.analysis.error)], false)
  else
  let t1 := t0 ++ [("searching", (25 : Int), "Searching for information...")]
  if !p.search.success then
    (t1 ++ [("failed", 0, "Web search failed: " ++ errText p.search.error)], false)
  else
  let t2 := t1 ++ [("extracting", (40 : Int), "Extracting content...")]
  if !p.extraction.success then
    (t2 ++ [("failed", 0, "Content extraction failed: " ++ errText p.extraction.error)], false)
  else
  let t3 := t2 ++ [("analyzing", (60 : Int), "Generating insights...")]
  if !p.insight.success then
    (t3 ++ [("failed", 0, "Insight generation failed: " ++ errText p.insight.error)], false)
  else
  let t4 := t3 ++ [("formatting", (80 : Int), "Formatting report...")]
  if !p.format.success then
    (t4 ++ [("failed", 0, "Report formatting failed: " ++ errText p.format.error)], false)
  else
  let t5 := if enable_validation
    then t4 ++ [("validating", (95 : Int), "Validating results...")]
    else t4
  (t5 ++ [("completed", (100 : Int), "Research completed")], true)

/-- One entry of the in-memory `research_storage` dict (lines 93-101): the
`message` key is absent until the first `update_research_status` call.
Timestamps are abstract ticks. -/
structure ResearchRecord where
  id : String
  status : String
  progress : Int
  query : String
  message : Option String
  created_at : Nat
  updated_at : Nat
  user_id : String
deriving Inhabited, DecidableEq

/-- The `research_storage` dict, keyed by research id. -/
abbrev Store := List (String × ResearchRecord)

/-- Membership / lookup in `research_storage`. -/
def lookupRecord (store : Store) (k : String) : Option ResearchRecord :=
  (store.find? (fun p => p.1 == k)).map (fun p => p.2)

/-- `update_research_status(research_id, status, progress, message)`
(lines 263-271): if the id is present, `dict.update` the four mutable fields
and refresh `updated_at` to the current time `now`; otherwise do nothing. -/
def update_research_status (store : Store) (research_id : String)
    (status : String) (progress : Int) (message : String) (now : Nat) : Store :=
  if store.any (fun p => p.1 == research_id) then
    store.map (fun p =>
      if p.1 == research_id then
        (p.1, { p.2 with status := status, progress := progress,
                         message := some message, updated_at := now })
      else p)
  else store

/-- The `ResearchStatus` response model (lines 55-62). -/
structure ResearchStatus where
  id : String
  status : String
  progress : Int
  message : String
  created_at : Nat
  updated_at : Nat
deriving Inhabited, DecidableEq

/-- A Python call that either returns or terminates with an uncaught
exception, identified by the exception class name. -/
inductive PyResult (α : Type) where
  | ok : α → PyResult α
  | raised : String → PyResult α
deriving DecidableEq

/-- `get_research_status(research_id)` (lines 290-305).  On a known id it
returns the snapshot.  On an unknown id line 294 evaluates the name
`ResourceNotFoundError`, which the module never imports (the import list at
lines 14-26 of `research.py` brings in only `ResearchError` and
`ValidationError` from `backend.core.exceptions`), so the call terminates
with an uncaught `NameError` rather than the intended not-found error. -/
def get_research_status (store : Store) (research_id : String) :
    PyResult ResearchStatus :=
  match lookupRecord store research_id with
  | none => .raised "NameError"
  | some data =>
      .ok { id := data.id, status := data.status, progress := data.progress,
            message := data.message.getD "", created_at := data.created_at,
            updated_at := data.updated_at }

/-!
Auxiliary definitions for the theorems: a metadata-free projection of result
envelopes (used to compare chained and sequential execution), the predicate
that an agent's computation ignores its context, and concrete agents, chains,
phase results and storage states used as witnesses and counterexamples.
-/

/-- The envelope without its `metadata` field. -/
def stripResult (r : AgentResult) : String × Bool × Value × Option String × Nat :=
  (r.agent_name, r.success, r.data, r.error, r.duration_ms)

/-- An agent whose core computation does not read `self._context`. -/
def ctxFree (a : Agent) : Prop :=
  ∀ input c1 c2, a.compute input c1 = a.compute input c2

/-- Metadata-free trace of running a list of agents one after the other,
feeding `data` forward and stopping at the first failure, independent of any
delivered context (meaningful for context-free agents). -/
def chainRunStrip : List Agent → Value → List (String × Bool × Value × Option String × Nat)
  | [], _ => []
  | a :: rest, input =>
    if (a.run input none).success then
      stripResult (a.run input none) :: chainRunStrip rest (a.run input none).data
    else [stripResult (a.run input none)]

/-- Number of context keys recorded in an envelope's metadata. -/
def ctxKeysCount (r : AgentResult) : Nat :=
  match dictGet r.metadata "context_keys" with
  | some (Value.list l) => l.length
  | _ => 0

/-- A concrete agent that always returns normally. -/
def wOk1 : Agent :=
  { name := "ok1", id := "ok1_11111111", timeout := 30,
    compute := fun _ _ => Outcome.ok (Value.str "out1") 5 }

/-- A second concrete agent that always returns normally. -/
def wOk2 : Agent :=
  { name := "ok2", id := "ok2_22222222", timeout := 30,
    compute := fun _ _ => Outcome.ok (Value.num 2) 7 }

/-- A concrete agent whose computation always raises. -/
def wFail1 : Agent :=
  { name := "fail1", id := "fail1_33333333", timeout := 30,
    compute := fun _ _ => Outcome.exn "boom" 3 }

/-- A concrete agent that always exceeds its deadline. -/
def wFail2 : Agent :=
  { name := "fail2", id := "fail2_44444444", timeout := 10,
    compute := fun _ _ => Outcome.timedOut 9 }

/-- A concrete two-link chain `ok1 -> ok2`. -/
def wChain : ChainableAgent :=
  ChainableAgent.mk wOk1 (some (ChainableAgent.mk wOk2 none))

/-- Phase envelopes of a workflow run in which every phase agent succeeds. -/
def allOkPhases : PhaseResults :=
  { analysis := wOk1.run (Value.str "query text") none
    search := wOk1.run (Value.str "query text") none
    extraction := wOk1.run (Value.str "query text") none
    insight := wOk1.run (Value.str "query text") none
    format := wOk1.run (Value.str "query text") none
    validation := wOk1.run (Value.str "query text") none }

/-- A concrete storage record. -/
def wRec1 : ResearchRecord :=
  { id := "r1", status := "processing", progress := 0, query := "what is x",
    message := none, created_at := 1, updated_at := 1, user_id := "u1" }

/-- A second concrete storage record. -/
def wRec2 : ResearchRecord :=
  { id := "r2", status := "completed", progress := 100, query := "what is y",
    message := some "Research completed", created_at := 2, updated_at := 9,
    user_id := "u2" }

/-- A concrete storage state with two research entries. -/
def wStore : Store := [("r1", wRec1), ("r2", wRec2)]

/-!
Helper lemmas about the dictionary model.
-/

/-- Looking up the key just written by a Python dict assignment yields the
written value. -/
theorem dictGet_dictInsert (d : Ctx) (k : String) (v : Value) :
    dictGet (dictInsert d k v) k = some v := by
  unfold dictInsert
  by_cases h : d.any (fun p => p.1 == k) = true
  · rw [if_pos h]
    obtain ⟨p0, hp0, hk0⟩ := List.any_eq_true.mp h
    clear h
    induction d with
    | nil => cases hp0
    | cons q t ih =>
      by_cases hq : q.1 == k
      · simp [dictGet, List.find?, hq]
      · rcases List.mem_cons.mp hp0 with rfl | hmem
        · exact absurd hk0 hq
        · simpa [dictGet, List.find?, hq] using ih hmem
  · rw [if_neg h]
    have hall : ∀ p ∈ d, ¬ (p.1 == k) = true :=
      List.any_eq_false.mp (Bool.not_eq_true _ ▸ Bool.of_not_eq_true h)
    have hfind : d.find? (fun p => p.1 == k) = none := List.find?_eq_none.mpr hall
    simp [dictGet, List.find?_append, hfind, List.find?]

/-- The canonical form of the metadata produced by `BaseAgent._get_metadata`,
whatever the computation's outcome was. -/
theorem run_metadata (a : Agent) (input : Value) (context : Option Ctx) :
    (a.run input context).metadata = a.metadataOf (context.getD []) := by
  unfold Agent.run Agent.execute Agent.runWith
  cases a.compute input (context.getD []) <;> rfl

/-- The agent name recorded in any envelope of `BaseAgent.execute`. -/
theorem run_agent_name (a : Agent) (input : Value) (context : Option Ctx) :
    (a.run input context).agent_name = a.name := by
  unfold Agent.run Agent.execute Agent.runWith
  cases a.compute input (context.getD []) <;> rfl

/-- Claim C1: `BaseAgent.execute` is total (it is a Lean function, so it never
raises), and the returned envelope has `success` true with `data` the
computation's return value and `error` null exactly when the computation
returned normally within the deadline; when the computation raised or timed
out, `success` is false, `data` is null and `error` is a non-null message. -/
theorem execute_envelope_contract (a : Agent) (input : Value)
    (context : Option Ctx) (st : Ctx) :
    ((a.execute input context st).1.success = true
        ↔ ∃ v ms, a.compute input (context.getD []) = Outcome.ok v ms)
    ∧ (∀ v ms, a.compute input (context.getD []) = Outcome.ok v ms →
        (a.execute input context st).1.data = v
        ∧ (a.execute input context st).1.error = none)
    ∧ (∀ msg ms, a.compute input (context.getD []) = Outcome.exn msg ms →
        (a.execute input context st).1.data = Value.vnone
        ∧ (a.execute input context st).1.error = some msg)
    ∧ (∀ ms, a.compute input (context.getD []) = Outcome.timedOut ms →
        (a.execute input context st).1.data = Value.vnone
        ∧ (a.execute input context st).1.error
            = some ("Agent execution timed out after " ++ toString a.timeout ++ "s"))
    ∧ ((a.execute input context st).1.success = false →
        (a.execute input context st).1.error ≠ none) := by
  unfold Agent.execute Agent.runWith
  cases h : a.compute input (context.getD []) <;>
    simp_all

/-- Witness for C1: the contract evaluated on a concrete always-succeeding
agent. -/
theorem execute_envelope_contract_witness :
    (wOk1.execute (Value.str "q") none []).1.data = Value.str "out1"
    ∧ (wOk1.execute (Value.str "q") none []).1.error = none :=
  (execute_envelope_contract wOk1 (Value.str "q") none []).2.1
    (Value.str "out1") 5 rfl

/-- Claim C10: `BaseAgent.execute` replaces `self._context` wholesale with
the passed mapping (empty when none is passed): the result and the new state
do not depend on the previous context, values stored beforehand via
`set_context` are discarded, and the envelope's metadata records as
`context_keys` exactly the keys of the passed mapping. -/
theorem execute_replaces_context (a : Agent) (input : Value)
    (context : Option Ctx) (st st2 : Ctx) (k : String) (v : Value) :
    a.execute input context (Agent.setContext st k v) = a.execute input context st2
    ∧ (a.execute input context st).2 = context.getD []
    ∧ dictGet (a.execute input context st).1.metadata "context_keys"
        = some (Value.list ((dictKeys (context.getD [])).map Value.str)) := by
  refine ⟨rfl, rfl, ?_⟩
  show dictGet (a.runWith input (context.getD [])).metadata "context_keys" = _
  unfold Agent.runWith
  cases a.compute input (context.getD []) <;> rfl

/-- Claim C4: `execute_parallel` returns exactly one envelope per registered
agent, positionally aligned with registration order (the i-th envelope is the
i-th agent's), every agent receiving the same input and a context equal to
its own copy of the shared mapping. -/
theorem execute_parallel_positional (agents : List Agent) (input_data : Value)
    (context : Option Ctx) :
    (execute_parallel agents input_data context).length = agents.length
    ∧ ∀ i, (h : i < (execute_parallel agents input_data context).length) →
        (execute_parallel agents input_data context)[i]
          = (agents.getD i default).run input_data (some (context.getD [])) := by
  constructor
  · simp [execute_parallel]
  · intro i h
    have hlen : i < agents.length := by simpa [execute_parallel] using h
    simp [execute_parallel, List.getD_eq_getElem agents default hlen,
      List.getElem?_eq_getElem hlen]

/-- Witness for C4: positional alignment evaluated on two concrete agents. -/
theorem execute_parallel_positional_witness :
    (execute_parallel [wOk1, wFail1] (Value.str "q") none).getD 1 default
      = (([wOk1, wFail1] : List Agent).getD 1 default).run (Value.str "q")
          (some ((none : Option Ctx).getD [])) := by
  have hlen : 1 < (execute_parallel [wOk1, wFail1] (Value.str "q") none).length := by
    decide
  rw [List.getD_eq_getElem _ default hlen]
  exact (execute_parallel_positional [wOk1, wFail1] (Value.str "q") none).2 1 hlen

/-- Full characterisation of the loop of `execute_sequential`: the loop
appends a block of envelopes to the accumulated results; the block has at
most one envelope per remaining agent; all but its last envelope are
successful; it is shorter than the agent list only when its last envelope
failed; and its i-th envelope is produced by the i-th remaining agent, fed
the previous envelope's `data` (the current input for i = 0) and the context
built by `seqContext` from the results accumulated so far. -/
theorem execute_sequentialGo_spec (ctx : Ctx) :
    ∀ (agents : List Agent) (input : Value) (results0 : List AgentResult),
      ∃ tail, execute_sequentialGo ctx agents input results0 = results0 ++ tail
        ∧ tail.length ≤ agents.length
        ∧ (∀ i, i + 1 < tail.length → (tail.getD i default).success = true)
        ∧ (tail.length = agents.length
            ∨ tail.getLast?.map (fun r => r.success) = some false)
        ∧ (∀ i, i < tail.length → tail.getD i default =
            (agents.getD i default).run
              (if i = 0 then input else (tail.getD (i - 1) default).data)
              (some (seqContext ctx (results0 ++ tail.take i)))) := by
  intro agents
  induction agents with
  | nil =>
    intro input results0
    refine ⟨[], by simp [execute_sequentialGo], by simp, by simp, Or.inl rfl, by simp⟩
  | cons a rest ih =>
    intro input results0
    by_cases hs : (a.run input (some (seqContext ctx results0))).success = true
    · obtain ⟨tail1, h1, h2, h3, h4, h5⟩ :=
        ih (a.run input (some (seqContext ctx results0))).data
          (results0 ++ [a.run input (some (seqContext ctx results0))])
      refine ⟨a.run input (some (seqContext ctx results0)) :: tail1, ?_, ?_, ?_, ?_, ?_⟩
      · simp only [execute_sequentialGo, hs, if_true, h1, List.append_assoc,
          List.singleton_append]
      · simpa using Nat.succ_le_succ h2
      · intro i hi
        cases i with
        | zero => simpa using hs
        | succ j =>
          rw [List.getD_cons_succ]
          exact h3 j (by simpa using hi)
      · rcases h4 with h4 | h4
        · exact Or.inl (by simpa using h4)
        · cases tail1 with
          | nil => simp at h4
          | cons x t => exact Or.inr (by rw [List.getLast?_cons_cons]; exact h4)
      · intro i hi
        cases i with
        | zero => simp
        | succ j =>
          have hj : j < tail1.length := by simpa using hi
          have := h5 j hj
          rw [List.getD_cons_succ]
          rw [this]
          have harg : (if j = 0 then (a.run input (some (seqContext ctx results0))).data
              else (tail1.getD (j - 1) default).data)
              = ((a.run input (some (seqContext ctx results0)) :: tail1).getD j default).data := by
            cases j with
            | zero => simp
            | succ k => simp
          have hctx : (results0 ++ [a.run input (some (seqContext ctx results0))]) ++ tail1.take j
              = results0 ++ (a.run input (some (seqContext ctx results0)) :: tail1).take (j + 1) := by
            simp [List.take_succ_cons]
          rw [harg, hctx]
          simp
    · refine ⟨[a.run input (some (seqContext ctx results0))], ?_, ?_, ?_, ?_, ?_⟩
      · simp only [execute_sequentialGo, hs, if_false, Bool.false_eq_true]
      · simp
      · intro i hi; simp at hi
      · exact Or.inr (by simp [Bool.not_eq_true] at hs; simp [hs])
      · intro i hi
        have : i = 0 := by simpa using hi
        subst this
        simp

/-- Claim C2: `execute_sequential` runs agents in registration order, feeding
each successful envelope's `data` to the next agent; it stops at the first
failed envelope (every returned envelope but the last is successful, and the
run is shorter than the agent list only because its last envelope failed);
if every returned envelope is successful there is exactly one envelope per
registered agent, in registration order. -/
theorem execute_sequential_contract (agents : List Agent) (input : Value)
    (context : Option Ctx) :
    (execute_sequential agents input context).length ≤ agents.length
    ∧ (∀ i, i + 1 < (execute_sequential agents input context).length →
        ((execute_sequential agents input context).getD i default).success = true)
    ∧ ((execute_sequential agents input context).length = agents.length
        ∨ (execute_sequential agents input context).getLast?.map (fun r => r.success)
            = some false)
    ∧ ((∀ r ∈ execute_sequential agents input context, r.success = true) →
        (execute_sequential agents input context).length = agents.length)
    ∧ (∀ i, i < (execute_sequential agents input context).length →
        ∃ c, (execute_sequential agents input context).getD i default =
          (agents.getD i default).run
            (if i = 0 then input
             else ((execute_sequential agents input context).getD (i - 1) default).data)
            (some c)) := by
  obtain ⟨tail, h1, h2, h3, h4, h5⟩ :=
    execute_sequentialGo_spec (context.getD []) agents input []
  have hrs : execute_sequential agents input context = tail := by
    simpa [execute_sequential] using h1
  rw [hrs]
  refine ⟨h2, h3, h4, ?_, ?_⟩
  · intro hall
    rcases h4 with h4 | h4
    · exact h4
    · obtain ⟨r0, hr0, hr0s⟩ := Option.map_eq_some'.mp h4
      have hmem0 : r0 ∈ tail.getLast? := hr0 ▸ rfl
      obtain ⟨hne, heq⟩ := List.mem_getLast?_eq_getLast hmem0
      have hmem : r0 ∈ tail := heq ▸ List.getLast_mem hne
      have htrue := hall r0 hmem
      simp [htrue] at hr0s
  · intro i hi
    exact ⟨seqContext (context.getD []) (tail.take i), by simpa using h5 i hi⟩

/-- Witness for C2: the second envelope of a concrete two-agent run is the
second agent's, fed the first envelope's data. -/
theorem execute_sequential_contract_witness : ∃ c,
    (execute_sequential [wOk1, wFail1] (Value.str "q") none).getD 1 default
      = (([wOk1, wFail1] : List Agent).getD 1 default).run
          (if 1 = 0 then Value.str "q"
           else ((execute_sequential [wOk1, wFail1] (Value.str "q") none).getD (1 - 1) default).data)
          (some c) :=
  (execute_sequential_contract [wOk1, wFail1] (Value.str "q") none).2.2.2.2 1 (by decide)

/-- Claim C3, amended: in `execute_sequential`, every agent call after the
first receives a context carrying a `previous_results` entry equal to the
list of `data` values of the prior successful envelopes; the first call
receives the shared context unchanged, with no `previous_results` entry
added. -/
theorem execute_sequential_context (agents : List Agent) (input : Value)
    (context : Option Ctx) :
    seqContext (context.getD []) ((execute_sequential agents input context).take 0)
        = context.getD []
    ∧ ∀ i, i < (execute_sequential agents input context).length →
      ((execute_sequential agents input context).getD i default =
          (agents.getD i default).run
            (if i = 0 then input
             else ((execute_sequential agents input context).getD (i - 1) default).data)
            (some (seqContext (context.getD [])
              ((execute_sequential agents input context).take i))))
      ∧ (0 < i →
          dictGet (seqContext (context.getD [])
              ((execute_sequential agents input context).take i)) "previous_results"
            = some (prevResultsValue ((execute_sequential agents input context).take i))) := by
  obtain ⟨tail, h1, _h2, _h3, _h4, h5⟩ :=
    execute_sequentialGo_spec (context.getD []) agents input []
  have hrs : execute_sequential agents input context = tail := by
    simpa [execute_sequential] using h1
  rw [hrs]
  refine ⟨by simp [seqContext], ?_⟩
  intro i hi
  constructor
  · simpa using h5 i hi
  · intro hpos
    have hlen : (tail.take i).length = i := by
      rw [List.length_take]
      omega
    have hE : (tail.take i).isEmpty = false := by
      cases hE : (tail.take i).isEmpty
      · rfl
      · have := List.isEmpty_iff.mp hE
        rw [this] at hlen
        simp at hlen
        omega
    simp [seqContext, hE, dictGet_dictInsert]

/-- Witness for C3 (amended): the second call of a concrete run carries the
first agent's data under `previous_results`. -/
theorem execute_sequential_context_witness :
    dictGet (seqContext ((none : Option Ctx).getD [])
        ((execute_sequential [wOk1, wOk2] (Value.str "q") none).take 1)) "previous_results"
      = some (prevResultsValue ((execute_sequential [wOk1, wOk2] (Value.str "q") none).take 1)) :=
  ((execute_sequential_context [wOk1, wOk2] (Value.str "q") none).2 1 (by decide)).2 (by decide)

/-- Counterexample to C3 as stated: the first agent call does not receive a
`previous_results` entry.  The context delivered to the first call of a
concrete run is the bare shared context (here empty: lookup of
`previous_results` yields nothing, where the claim requires the empty list),
and the returned envelope's metadata confirms that the delivered mapping had
no keys at all. -/
theorem execute_sequential_context_counterexample :
    dictGet (seqContext ((none : Option Ctx).getD [])
        ((execute_sequential [wOk1] (Value.str "q") none).take 0)) "previous_results" = none
    ∧ dictGet ((execute_sequential [wOk1] (Value.str "q") none).getD 0 default).metadata
        "context_keys" = some (Value.list []) := by
  exact ⟨rfl, rfl⟩

/-- Claim C5: when no map envelope succeeds, `execute_map_reduce` returns a
single failed envelope named `map_reduce` (reducer not invoked) whose error
states that all map agents failed, whose `duration_ms` is the sum of every
map envelope's duration, and whose metadata lists the names of all (failed)
map agents; otherwise it returns exactly the reducer's envelope, the reducer
run through the standard execution wrapper on the ordered successful data
payloads and the successful agents' name-to-metadata mapping. -/
theorem execute_map_reduce_contract (agents : List Agent) (input_data : Value)
    (reducer : Agent) (context : Option Ctx) :
    ((∀ r ∈ execute_parallel agents input_data context, r.success = false) →
      execute_map_reduce agents input_data reducer context =
        { agent_name := "map_reduce", success := false, data := Value.vnone,
          error := some "All map agents failed",
          duration_ms := ((execute_parallel agents input_data context).map
            (fun r => r.duration_ms)).sum,
          metadata := [("failed_agents", Value.list
            ((execute_parallel agents input_data context).map
              (fun r => Value.str r.agent_name)))] })
    ∧ ((∃ r ∈ execute_parallel agents input_data context, r.success = true) →
      execute_map_reduce agents input_data reducer context =
        reducer.run (Value.dict
          [("results", Value.list
              (((execute_parallel agents input_data context).filter
                (fun r => r.success)).map (fun r => r.data))),
           ("metadata", Value.dict (dictOfPairs
              (((execute_parallel agents input_data context).filter
                (fun r => r.success)).map
                (fun r => (r.agent_name, Value.dict r.metadata)))))])
          context) := by
  constructor
  · intro hall
    have hfilter : (execute_parallel agents input_data context).filter
        (fun r => r.success) = [] :=
      List.filter_eq_nil_iff.mpr (fun r hr => by simp [hall r hr])
    have hkeep : (execute_parallel agents input_data context).filter
        (fun r => !r.success) = execute_parallel agents input_data context :=
      List.filter_eq_self.mpr (fun r hr => by simp [hall r hr])
    simp only [execute_map_reduce]
    rw [hfilter, hkeep]
    rfl
  · intro hex
    have hfilter : ((execute_parallel agents input_data context).filter
        (fun r => r.success)).isEmpty = false := by
      obtain ⟨r, hr, hrs⟩ := hex
      cases hE : ((execute_parallel agents input_data context).filter
          (fun r => r.success)).isEmpty
      · rfl
      · have hnil := List.isEmpty_iff.mp hE
        have : r ∈ (execute_parallel agents input_data context).filter
            (fun r => r.success) := List.mem_filter.mpr ⟨hr, hrs⟩
        rw [hnil] at this
        cases this
    simp only [execute_map_reduce]
    rw [hfilter]
    rfl

/-- Witness for C5: both branches evaluated concretely — two failing map
agents short-circuit with the summed durations and the failed names; one
successful map agent routes the constructed input to the reducer. -/
theorem execute_map_reduce_contract_witness :
    (execute_map_reduce [wFail1, wFail2] (Value.str "q") wOk1 none =
      { agent_name := "map_reduce", success := false, data := Value.vnone,
        error := some "All map agents failed",
        duration_ms := ((execute_parallel [wFail1, wFail2] (Value.str "q") none).map
          (fun r => r.duration_ms)).sum,
        metadata := [("failed_agents", Value.list
          ((execute_parallel [wFail1, wFail2] (Value.str "q") none).map
            (fun r => Value.str r.agent_name)))] })
    ∧ (execute_map_reduce [wOk1, wFail1] (Value.str "q") wOk2 none =
      wOk2.run (Value.dict
        [("results", Value.list
            (((execute_parallel [wOk1, wFail1] (Value.str "q") none).filter
              (fun r => r.success)).map (fun r => r.data))),
         ("metadata", Value.dict (dictOfPairs
            (((execute_parallel [wOk1, wFail1] (Value.str "q") none).filter
              (fun r => r.success)).map
              (fun r => (r.agent_name, Value.dict r.metadata)))))])
        none) := by
  constructor
  · exact (execute_map_reduce_contract [wFail1, wFail2] (Value.str "q") wOk1 none).1
      (by decide)
  · exact (execute_map_reduce_contract [wOk1, wFail1] (Value.str "q") wOk2 none).2
      (by decide)

/-- For a context-free agent the metadata-free part of the envelope does not
depend on the delivered context. -/
theorem strip_run_ctxFree (a : Agent) (h : ctxFree a) (input : Value)
    (c1 c2 : Option Ctx) :
    stripResult (a.run input c1) = stripResult (a.run input c2) := by
  have hc : a.compute input (c1.getD []) = a.compute input (c2.getD []) :=
    h input _ _
  unfold Agent.run Agent.execute Agent.runWith
  rw [hc]
  cases a.compute input (c2.getD []) <;> rfl

/-- The loop of `execute_sequential`, projected through `stripResult`, is the
context-independent chain trace when every agent is context-free. -/
theorem go_strip (ctx : Ctx) :
    ∀ (agents : List Agent), (∀ a ∈ agents, ctxFree a) →
      ∀ (input : Value) (results0 : List AgentResult),
        (execute_sequentialGo ctx agents input results0).map stripResult
          = results0.map stripResult ++ chainRunStrip agents input := by
  intro agents
  induction agents with
  | nil =>
    intro _ input results0
    simp [execute_sequentialGo, chainRunStrip]
  | cons a rest ih =>
    intro hcf input results0
    have ha : ctxFree a := hcf a (by simp)
    have hrest : ∀ b ∈ rest, ctxFree b := fun b hb => hcf b (by simp [hb])
    have hstrip : stripResult (a.run input (some (seqContext ctx results0)))
        = stripResult (a.run input none) :=
      strip_run_ctxFree a ha input _ none
    have hsuc : (a.run input (some (seqContext ctx results0))).success
        = (a.run input none).success :=
      congrArg (fun t => t.2.1) hstrip
    have hdata : (a.run input (some (seqContext ctx results0))).data
        = (a.run input none).data :=
      congrArg (fun t => t.2.2.1) hstrip
    by_cases hs : (a.run input none).success = true
    · simp only [execute_sequentialGo, hsuc, hs, if_true]
      rw [ih hrest]
      simp only [chainRunStrip, hs, if_true]
      rw [hdata]
      simp [hstrip]
    · have hs2 : (a.run input none).success = false := by
        simpa [Bool.not_eq_true] using hs
      simp only [execute_sequentialGo, hsuc, hs2, Bool.false_eq_true, if_false]
      simp only [chainRunStrip, hs2, Bool.false_eq_true, if_false]
      simp [hstrip]

/-- `execute_chain`, projected through `stripResult`, is the same
context-independent chain trace when every agent of the chain is
context-free. -/
theorem chain_strip :
    ∀ (c : ChainableAgent), (∀ a ∈ chainAgents c, ctxFree a) →
      ∀ (input : Value) (context : Option Ctx),
        (execute_chain c input context).map stripResult
          = chainRunStrip (chainAgents c) input
  | .mk a none, hcf, input, context => by
    have ha : ctxFree a := hcf a (by simp [chainAgents])
    have hstrip : stripResult (a.run input context)
        = stripResult (a.run input none) :=
      strip_run_ctxFree a ha input _ none
    have hsuc : (a.run input context).success = (a.run input none).success :=
      congrArg (fun t => t.2.1) hstrip
    by_cases hs : (a.run input none).success = true
    · simp only [execute_chain, chainAgents, hsuc, hs, if_true, chainRunStrip]
      simp [hstrip]
    · have hs2 : (a.run input none).success = false := by
        simpa [Bool.not_eq_true] using hs
      simp only [execute_chain, chainAgents, hsuc, hs2, Bool.false_eq_true,
        if_false, chainRunStrip]
      simp [hstrip]
  | .mk a (some c2), hcf, input, context => by
    have ha : ctxFree a := hcf a (by simp [chainAgents])
    have hrest : ∀ b ∈ chainAgents c2, ctxFree b := by
      intro b hb
      exact hcf b (by simp [chainAgents, hb])
    have hstrip : stripResult (a.run input context)
        = stripResult (a.run input none) :=
      strip_run_ctxFree a ha input _ none
    have hsuc : (a.run input context).success = (a.run input none).success :=
      congrArg (fun t => t.2.1) hstrip
    have hdata : (a.run input context).data = (a.run input none).data :=
      congrArg (fun t => t.2.2.1) hstrip
    by_cases hs : (a.run input none).success = true
    · simp only [execute_chain, chainAgents, hsuc, hs, if_true, chainRunStrip]
      rw [List.map_cons, chain_strip c2 hrest (a.run input context).data context,
        hdata]
      simp [hstrip]
    · have hs2 : (a.run input none).success = false := by
        simpa [Bool.not_eq_true] using hs
      simp only [execute_chain, chainAgents, hsuc, hs2, Bool.false_eq_true,
        if_false, chainRunStrip]
      simp [hstrip]

/-- Claim C6, amended: for any chain whose agents' computations do not read
the delivered context, `execute_chain` is equivalent to `execute_sequential`
over the chain's agents on the same input and context — same agents invoked,
same data inputs delivered, same stop condition — with envelopes equal after
discarding `metadata`.  (Full envelope equality fails: `execute_sequential`
injects a `previous_results` context entry for calls after the first, which
the envelope metadata records; `execute_chain` passes the caller's context
unchanged.) -/
theorem execute_chain_equiv_sequential (c : ChainableAgent)
    (hcf : ∀ a ∈ chainAgents c, ctxFree a) (input : Value)
    (context : Option Ctx) :
    (execute_chain c input context).map stripResult
      = (execute_sequential (chainAgents c) input context).map stripResult := by
  rw [chain_strip c hcf input context]
  rw [execute_sequential, go_strip (context.getD []) (chainAgents c) hcf input []]
  simp

/-- Witness for C6 (amended): the equivalence evaluated on a concrete
two-link chain of context-free agents. -/
theorem execute_chain_equiv_sequential_witness :
    (execute_chain wChain (Value.str "q") none).map stripResult
      = (execute_sequential (chainAgents wChain) (Value.str "q") none).map stripResult :=
  execute_chain_equiv_sequential wChain
    (by
      intro a ha inp c1 c2
      simp [chainAgents, wChain] at ha
      rcases ha with rfl | rfl <;> rfl)
    (Value.str "q") none

/-- Counterexample to C6 as stated: on a concrete two-link chain of
always-succeeding agents, `execute_chain` and `execute_sequential` do not
produce the same envelope list — the second envelope's metadata records one
context key (`previous_results`) under sequential orchestration and none
under chained execution. -/
theorem execute_chain_not_sequential :
    execute_chain wChain (Value.str "q") none
      ≠ execute_sequential (chainAgents wChain) (Value.str "q") none := by
  intro h
  have h2 := congrArg (fun rs => ctxKeysCount (rs.getD 1 default)) h
  exact absurd h2 (by decide)

/-- Claim C7, amended: in every successful workflow run, the Stage Tracker
updates pass through `analyzing`(10), `searching`(25), `extracting`(40),
`analyzing`(60) — the insight-generation phase reuses the `analyzing` status
rather than a `synthesizing` one — then `formatting`(80), `validating`(95,
only if validation is enabled) and `completed`(100), and the progress values
are monotonically non-decreasing across the run's updates. -/
theorem research_success_trace (p : PhaseResults) (ev : Bool)
    (h : (execute_research p ev).2 = true) :
    (execute_research p ev).1
      = [("analyzing", (10 : Int), "Analyzing query..."),
         ("searching", (25 : Int), "Searching for information..."),
         ("extracting", (40 : Int), "Extracting content..."),
         ("analyzing", (60 : Int), "Generating insights..."),
         ("formatting", (80 : Int), "Formatting report...")]
        ++ (if ev then [("validating", (95 : Int), "Validating results...")] else [])
        ++ [("completed", (100 : Int), "Research completed")]
    ∧ List.Chain' (fun a b => a.2.1 ≤ b.2.1) (execute_research p ev).1 := by
  have h1 : p.analysis.success = true := by
    by_contra hc
    have hf : p.analysis.success = false := by simpa [Bool.not_eq_true] using hc
    simp [execute_research, hf] at h
  have h2 : p.search.success = true := by
    by_contra hc
    have hf : p.search.success = false := by simpa [Bool.not_eq_true] using hc
    simp [execute_research, h1, hf] at h
  have h3 : p.extraction.success = true := by
    by_contra hc
    have hf : p.extraction.success = false := by simpa [Bool.not_eq_true] using hc
    simp [execute_research, h1, h2, hf] at h
  have h4 : p.insight.success = true := by
    by_contra hc
    have hf : p.insight.success = false := by simpa [Bool.not_eq_true] using hc
    simp [execute_research, h1, h2, h3, hf] at h
  have h5 : p.format.success = true := by
    by_contra hc
    have hf : p.format.success = false := by simpa [Bool.not_eq_true] using hc
    simp [execute_research, h1, h2, h3, h4, hf] at h
  have ht : (execute_research p ev).1
      = [("analyzing", (10 : Int), "Analyzing query..."),
         ("searching", (25 : Int), "Searching for information..."),
         ("extracting", (40 : Int), "Extracting content..."),
         ("analyzing", (60 : Int), "Generating insights..."),
         ("formatting", (80 : Int), "Formatting report...")]
        ++ (if ev then [("validating", (95 : Int), "Validating results...")] else [])
        ++ [("completed", (100 : Int), "Research completed")] := by
    cases ev <;> simp [execute_research, h1, h2, h3, h4, h5]
  refine ⟨ht, ?_⟩
  rw [ht]
  cases ev <;> simp [List.chain'_cons]

/-- Witness for C7 (amended): the trace of a concrete all-successful run with
validation enabled. -/
theorem research_success_trace_witness :
    (execute_research allOkPhases true).1
      = [("analyzing", (10 : Int), "Analyzing query..."),
         ("searching", (25 : Int), "Searching for information..."),
         ("extracting", (40 : Int), "Extracting content..."),
         ("analyzing", (60 : Int), "Generating insights..."),
         ("formatting", (80 : Int), "Formatting report...")]
        ++ (if true then [("validating", (95 : Int), "Validating results...")] else [])
        ++ [("completed", (100 : Int), "Research completed")]
    ∧ List.Chain' (fun a b => a.2.1 ≤ b.2.1) (execute_research allOkPhases true).1 :=
  research_success_trace allOkPhases true rfl

/-- Counterexample to C7 as stated: a successful run (validation enabled)
never passes through a `synthesizing` status — the fourth update reuses
`analyzing` at progress 60, so the status sequence is not the claimed
forward sequence through `synthesizing`. -/
theorem research_trace_no_synthesizing :
    (execute_research allOkPhases true).2 = true
    ∧ (execute_research allOkPhases true).1.map (fun t => t.1)
        ≠ ["analyzing", "searching", "extracting", "synthesizing", "formatting",
           "validating", "completed"] := by
  exact ⟨rfl, by decide⟩

/-- Searches `store.find?` evidence out of a `lookupRecord` hit. -/
theorem lookup_any (store : Store) (rid : String) (rec : ResearchRecord)
    (h : lookupRecord store rid = some rec) :
    store.any (fun p => p.1 == rid) = true := by
  obtain ⟨p0, hp0⟩ : ∃ p0, store.find? (fun p => p.1 == rid) = some p0 := by
    unfold lookupRecord at h
    cases hf : store.find? (fun p => p.1 == rid)
    · rw [hf] at h; cases h
    · exact ⟨_, rfl⟩
  exact List.any_eq_true.mpr ⟨p0, List.mem_of_find?_eq_some hp0,
    by simpa using List.find?_some hp0⟩

/-- Lookup of the updated key after a keyed in-place map. -/
theorem lookup_map_if_self (store : Store) (rid : String)
    (f : ResearchRecord → ResearchRecord) (rec : ResearchRecord)
    (h : lookupRecord store rid = some rec) :
    lookupRecord (store.map (fun p => if p.1 == rid then (p.1, f p.2) else p)) rid
      = some (f rec) := by
  induction store with
  | nil => cases h
  | cons q t ih =>
    by_cases hq : (q.1 == rid) = true
    · have hrec : q.2 = rec := by
        simpa [lookupRecord, List.find?, hq] using h
      subst hrec
      simp [lookupRecord, List.find?, hq]
    · have ht : lookupRecord t rid = some rec := by
        simpa [lookupRecord, List.find?, hq] using h
      have := ih ht
      simpa [lookupRecord, List.find?, hq] using this

/-- Lookup of a different key is untouched by a keyed in-place map. -/
theorem lookup_map_if_other (store : Store) (rid id2 : String)
    (f : ResearchRecord → ResearchRecord) (h : id2 ≠ rid) :
    lookupRecord (store.map (fun p => if p.1 == rid then (p.1, f p.2) else p)) id2
      = lookupRecord store id2 := by
  induction store with
  | nil => rfl
  | cons q t ih =>
    by_cases hq : (q.1 == rid) = true
    · have hqe : q.1 = rid := by simpa using hq
      have hq2 : (q.1 == id2) = false := by
        simp [hqe]
        exact fun he => h he.symm
      simpa [lookupRecord, List.find?, hq, hq2] using ih
    · by_cases hq2 : (q.1 == id2) = true
      · simp [lookupRecord, List.find?, hq, hq2]
      · simpa [lookupRecord, List.find?, hq, hq2] using ih

/-- Claim C8: `update_research_status` on a known id overwrites exactly the
mutable fields (`status`, `progress`, `message`) and refreshes `updated_at`,
leaving the entry's `id`, `query`, `created_at` and `user_id` and every other
entry unchanged; on an unknown id it is a silent no-op on the whole store. -/
theorem update_research_status_contract (store : Store) (research_id : String)
    (status : String) (progress : Int) (message : String) (now : Nat) :
    (∀ rec, lookupRecord store research_id = some rec →
      lookupRecord (update_research_status store research_id status progress message now)
          research_id
        = some { rec with
                 status := status, progress := progress,
                 message := some message, updated_at := now }
      ∧ ∀ id2, id2 ≠ research_id →
          lookupRecord (update_research_status store research_id status progress message now)
              id2
            = lookupRecord store id2)
    ∧ (lookupRecord store research_id = none →
        update_research_status store research_id status progress message now = store) := by
  constructor
  · intro rec hrec
    have hany := lookup_any store research_id rec hrec
    constructor
    · have := lookup_map_if_self store research_id
        (fun r => { r with
                    status := status, progress := progress,
                    message := some message, updated_at := now }) rec hrec
      simpa [update_research_status, hany] using this
    · intro id2 hid2
      have := lookup_map_if_other store research_id id2
        (fun r => { r with
                    status := status, progress := progress,
                    message := some message, updated_at := now }) hid2
      simpa [update_research_status, hany] using this
  · intro hnone
    have hfind : store.find? (fun p => p.1 == research_id) = none :=
      Option.map_eq_none'.mp hnone
    have hany : store.any (fun p => p.1 == research_id) = false :=
      List.any_eq_false.mpr (by
        intro p hp
        have := List.find?_eq_none.mp hfind p hp
        simpa using this)
    simp [update_research_status, hany]

/-- Witness for C8: a concrete two-entry store — updating `r1` rewrites its
mutable fields and timestamp and leaves `r2` untouched. -/
theorem update_research_status_contract_witness :
    lookupRecord (update_research_status wStore "r1" "searching" 25 "Searching..." 5) "r1"
      = some { wRec1 with
               status := "searching", progress := 25,
               message := some "Searching...", updated_at := 5 }
    ∧ lookupRecord (update_research_status wStore "r1" "searching" 25 "Searching..." 5) "r2"
      = lookupRecord wStore "r2" := by
  have h := (update_research_status_contract wStore "r1" "searching" 25 "Searching..." 5).1
    wRec1 (by decide)
  exact ⟨h.1, h.2 "r2" (by decide)⟩

/-- Claim C9 (code bug): on a known id `get_research_status` does return the
most recently written snapshot, but on an unknown id it terminates with a
`NameError` — line 294 raises `ResourceNotFoundError`, a name the module
never imports — instead of reporting the not-found condition the claim (and
the raise statement itself) intends. -/
theorem get_research_status_behavior :
    get_research_status wStore "missing" = PyResult.raised "NameError"
    ∧ get_research_status (update_research_status wStore "r1" "completed" 100 "done" 7) "r1"
      = PyResult.ok { id := "r1", status := "completed", progress := 100,
                      message := "done", created_at := 1, updated_at := 7 } := by
  exact ⟨rfl, rfl⟩
